import Mathlib

set_option maxHeartbeats 1000000

/- Shallow embedding of the account-mangage browser-extension core:
   src/crypto-utils.js (class CryptoUtils) and src/content.js
   (matchEnvironment, initFloatingPanel).

   Modelling conventions:
   * JS strings are Lean String values; Uint8Array / ArrayBuffer values are
     List Nat with every entry < 256 (hypothesised where it matters).
   * Fallible operations (code paths that throw) return Option; a thrown
     exception is none.
   * The platform crypto primitives the source calls but does not define
     (SubtleCrypto PBKDF2 deriveKey, AES-GCM encrypt and decrypt,
     TextEncoder and TextDecoder) are abstracted as a structure of
     functions, CryptoPrimitives.
   * btoa and atob (used by arrayBufferToBase64 and base64ToArrayBuffer)
     are modelled concretely as standard base64 and WHATWG forgiving
     base64 over byte lists.
   * The WHATWG URL parser (new URL) is modelled concretely on the
     fragment of its behaviour the matcher exercises: scheme parsing,
     an authority cut at the first of / ? #, a path cut at the first of
     ? # (so query and fragment are discarded), lower-casing of scheme
     and host, default-port elision for http and https, and the synthetic
     "/" pathname of special-scheme URLs with an empty path.  Userinfo,
     path dot-segment normalisation and percent-encoding are outside the
     modelled fragment; no claim exercises them. -/

namespace AccountManage

/-! ## Base64 (btoa / atob model) -/

/-- Base64 alphabet: sextet value 0-63 to character, as produced by btoa. -/
def b64Char (n : Nat) : Char :=
  if n < 26 then Char.ofNat (65 + n)
  else if n < 52 then Char.ofNat (71 + n)
  else if n < 62 then Char.ofNat (n - 4)
  else if n = 62 then '+'
  else '/'

/-- Inverse alphabet lookup, as used by atob; none for characters outside
the alphabet (the padding character included). -/
def b64Index (c : Char) : Option Nat :=
  if 'A' ≤ c ∧ c ≤ 'Z' then some (c.toNat - 65)
  else if 'a' ≤ c ∧ c ≤ 'z' then some (c.toNat - 71)
  else if '0' ≤ c ∧ c ≤ '9' then some (c.toNat + 4)
  else if c = '+' then some 62
  else if c = '/' then some 63
  else none

/-- btoa on a byte list: each group of 3 input bytes becomes 4 alphabet
characters; a final group of 1 or 2 bytes is padded with = to 4 output
characters. -/
def b64EncodeBytes : List Nat → List Char
  | a :: b :: c :: rest =>
      b64Char (a / 4) :: b64Char (a % 4 * 16 + b / 16) ::
        b64Char (b % 16 * 4 + c / 64) :: b64Char (c % 64) :: b64EncodeBytes rest
  | [a, b] => [b64Char (a / 4), b64Char (a % 4 * 16 + b / 16), b64Char (b % 16 * 4), '=']
  | [a] => [b64Char (a / 4), b64Char (a % 4 * 16), '=', '=']
  | [] => []

/-- ASCII whitespace stripped by atob (forgiving-base64). -/
def isB64Ws (c : Char) : Bool :=
  c == ' ' || c == Char.ofNat 9 || c == Char.ofNat 10 || c == Char.ofNat 12 ||
    c == Char.ofNat 13

/-- Padding-removal step of forgiving-base64: when the input length is a
multiple of 4, up to two trailing = characters are removed. -/
def stripPad (l : List Char) : List Char :=
  if l.length % 4 = 0 then
    if l.drop (l.length - 2) = ['=', '='] then l.take (l.length - 2)
    else if l.drop (l.length - 1) = ['='] then l.take (l.length - 1)
    else l
  else l

/-- Alphabet decoding of every character; none as soon as one character is
outside the alphabet. -/
def charsToSextets : List Char → Option (List Nat)
  | [] => some []
  | c :: cs =>
    match b64Index c, charsToSextets cs with
    | some n, some ns => some (n :: ns)
    | _, _ => none

/-- Bit reassembly of forgiving-base64: each group of 4 sextets yields
3 bytes; a final group of 2 or 3 sextets yields 1 or 2 bytes (surplus low
bits discarded); a final group of 1 sextet is an error. -/
def sextetsToBytes : List Nat → Option (List Nat)
  | [] => some []
  | [_] => none
  | [w, x] => some [w * 4 + x / 16]
  | [w, x, y] => some [w * 4 + x / 16, x % 16 * 16 + y / 4]
  | w :: x :: y :: z :: rest =>
    match sextetsToBytes rest with
    | none => none
    | some bs => some ((w * 4 + x / 16) :: (x % 16 * 16 + y / 4) :: (y % 4 * 64 + z) :: bs)

/-- atob on a character list (WHATWG forgiving-base64 decode): strip ASCII
whitespace, strip permitted padding, reject a length of 1 mod 4, decode the
alphabet, reassemble bytes. -/
def atobL (l : List Char) : Option (List Nat) :=
  let d0 := l.filter (fun c => !isB64Ws c)
  let d := stripPad d0
  if d.length % 4 = 1 then none
  else
    match charsToSextets d with
    | none => none
    | some ns => sextetsToBytes ns

/-- CryptoUtils.arrayBufferToBase64: builds the binary string of the byte
array and feeds it to btoa; net effect is base64 of the bytes. -/
def arrayBufferToBase64 (bytes : List Nat) : String :=
  String.mk (b64EncodeBytes bytes)

/-- CryptoUtils.base64ToArrayBuffer: atob followed by charCodeAt of every
character of the resulting binary string; net effect is forgiving-base64
decode to the byte list.  none models the exception atob throws on invalid
input. -/
def base64ToArrayBuffer (base64 : String) : Option (List Nat) :=
  atobL base64.data

/-! ## Credential cipher (CryptoUtils) -/

/-- Abstraction of the platform crypto primitives used by the source:
PBKDF2 key derivation (deriveKey), AES-GCM encryption and decryption
(crypto.subtle.encrypt / decrypt, tag handling included), and UTF-8 text
encoding (TextEncoder / TextDecoder).  none models a thrown exception. -/
structure CryptoPrimitives where
  deriveKey : List Nat → List Nat → Option (List Nat)
  aesGcmEncrypt : List Nat → List Nat → List Nat → Option (List Nat)
  aesGcmDecrypt : List Nat → List Nat → List Nat → Option (List Nat)
  encodeText : String → List Nat
  decodeText : List Nat → String

/-- CryptoUtils.generateSalt: crypto.getRandomValues on a 16-byte array;
the randomness source is an explicit input. -/
def generateSalt (rnd : Nat → Nat) : List Nat :=
  (List.range 16).map (fun i => rnd i % 256)

/-- CryptoUtils.generateIV: crypto.getRandomValues on a 12-byte array. -/
def generateIV (rnd : Nat → Nat) : List Nat :=
  (List.range 12).map (fun i => rnd i % 256)

/-- CryptoUtils.encrypt: encode the plaintext, generate salt and IV, derive
the key, AES-GCM encrypt, concatenate salt then IV then ciphertext, and
base64-encode the result.  none models the rethrown failure branch. -/
def encrypt (P : CryptoPrimitives) (plaintext password : String)
    (rndSalt rndIV : Nat → Nat) : Option String :=
  let data := P.encodeText plaintext
  let salt := generateSalt rndSalt
  let iv := generateIV rndIV
  match P.deriveKey (P.encodeText password) salt with
  | none => none
  | some key =>
    match P.aesGcmEncrypt key iv data with
    | none => none
    | some encrypted => some (arrayBufferToBase64 (salt ++ iv ++ encrypted))

/-- CryptoUtils.decrypt: base64-decode, split at offsets 16 and 28 into
salt, IV and ciphertext, derive the key from the recovered salt, AES-GCM
decrypt, and decode the plaintext bytes.  none models the rethrown failure
branch (malformed blob, derivation failure, authentication failure). -/
def decrypt (P : CryptoPrimitives) (ciphertext password : String) : Option String :=
  match base64ToArrayBuffer ciphertext with
  | none => none
  | some data =>
    let salt := data.take 16
    let iv := (data.drop 16).take 12
    let encrypted := data.drop 28
    match P.deriveKey (P.encodeText password) salt with
    | none => none
    | some key =>
      match P.aesGcmDecrypt key iv encrypted with
      | none => none
      | some decrypted => some (P.decodeText decrypted)

/-- CryptoUtils.getMasterPassword: chrome.storage.local.get of the fixed
key; a storage failure or a falsy stored value (absent entry or empty
string) yields null.  The storage read is an explicit input: error models
a thrown storage exception. -/
def getMasterPassword (store : Except Unit (Option String)) : Option String :=
  match store with
  | Except.error _ => none
  | Except.ok none => none
  | Except.ok (some s) => if s = "" then none else some s

/-- The `masterPassword || await this.getMasterPassword()` defaulting used
by encryptPassword and decryptPassword: a falsy argument (null or the
empty string) falls back to the stored master password. -/
def resolveMaster (param : Option String) (store : Except Unit (Option String)) :
    Option String :=
  match param with
  | none => getMasterPassword store
  | some p => if p = "" then getMasterPassword store else some p

/-- Character class of the isBase64 regex: A-Z a-z 0-9 + / . -/
def isB64AlphaChar (c : Char) : Bool :=
  c.isAlpha || c.isDigit || c == '+' || c == '/'

/-- The anchored regex of CryptoUtils.isBase64: zero or more alphabet
characters followed by at most two = characters.  Because = is not in the
character class, the maximal alphabet run must be followed only by the
padding run. -/
def b64Shape (l : List Char) : Bool :=
  let rest := l.dropWhile isB64AlphaChar
  rest == [] || rest == ['='] || rest == ['=', '=']

/-- CryptoUtils.isBase64: the regex matches and the string is nonempty. -/
def isBase64 (str : String) : Bool :=
  b64Shape str.data && decide (str.length > 0)

/-- CryptoUtils.encryptPassword: resolve the master password; if absent,
return the password unchanged (warning only); otherwise delegate to
encrypt, and return the password unchanged if encrypt fails. -/
def encryptPassword (P : CryptoPrimitives) (store : Except Unit (Option String))
    (param : Option String) (password : String) (rndSalt rndIV : Nat → Nat) : String :=
  match resolveMaster param store with
  | none => password
  | some master =>
    match encrypt P password master rndSalt rndIV with
    | none => password
    | some blob => blob

/-- CryptoUtils.decryptPassword: if the value fails the base64-shape check
it is returned unchanged (legacy plaintext); otherwise resolve the master
password (unchanged if absent) and delegate to decrypt, returning the
value unchanged if decrypt fails. -/
def decryptPassword (P : CryptoPrimitives) (store : Except Unit (Option String))
    (param : Option String) (encryptedPassword : String) : String :=
  if isBase64 encryptedPassword = false then encryptedPassword
  else
    match resolveMaster param store with
    | none => encryptedPassword
    | some master =>
      match decrypt P encryptedPassword master with
      | none => encryptedPassword
      | some plain => plain

/-! ## URL parsing and the environment matcher (content.js) -/

/-- The parts of a parsed URL the matcher reads: url.protocol (with the
trailing colon), url.host (hostname and any non-default port) and
url.pathname. -/
structure URLParts where
  protocol : String
  host : String
  pathname : String
  deriving DecidableEq

/-- First character of a scheme: an ASCII letter. -/
def isSchemeStart (c : Char) : Bool := c.isAlpha

/-- Subsequent scheme characters. -/
def isSchemeChar (c : Char) : Bool :=
  c.isAlphanum || c == '+' || c == '-' || c == '.'

/-- Characters ending the authority component. -/
def isAuthorityStop (c : Char) : Bool := c == '/' || c == '?' || c == '#'

/-- Characters ending the path component (query and fragment openers). -/
def isPathStop (c : Char) : Bool := c == '?' || c == '#'

/-- Scheme splitting of the URL parser: a leading letter, further scheme
characters, then a mandatory colon; none models the TypeError new URL
throws otherwise. -/
def splitScheme (l : List Char) : Option (List Char × List Char) :=
  if (l.head?.map isSchemeStart).getD false = true ∧
      (l.dropWhile isSchemeChar).head? = some ':' then
    some (l.takeWhile isSchemeChar, (l.dropWhile isSchemeChar).tail)
  else none

/-- WHATWG special schemes (these render an empty path as "/"). -/
def specialScheme (s : List Char) : Bool :=
  s == "http".data || s == "https".data || s == "ws".data || s == "wss".data ||
    s == "ftp".data || s == "file".data

/-- Default-port elision of url.host for http and https. -/
def dropDefaultPort (scheme host : List Char) : List Char :=
  if scheme == "http".data && host.drop (host.length - 3) == ":80".data then
    host.take (host.length - 3)
  else if scheme == "https".data && host.drop (host.length - 4) == ":443".data then
    host.take (host.length - 4)
  else host

/-- Does the part after the scheme colon open an authority (begin //)? -/
def startsWithSlashSlash : List Char → Bool
  | d1 :: d2 :: _ => d1 == '/' && d2 == '/'
  | _ => false

/-- The authority-full form scheme://host/path?query#fragment: authority up
to the first of / ? #, path up to the first of ? # (query and fragment
never reach the recorded parts), empty authority rejected for special
schemes, empty path of a special scheme rendered as "/". -/
def authorityForm (scheme rest2 : List Char) : Option URLParts :=
  let auth := rest2.takeWhile (fun c => !isAuthorityStop c)
  let after := rest2.dropWhile (fun c => !isAuthorityStop c)
  if specialScheme scheme && auth == [] then none
  else
    let host := dropDefaultPort scheme (auth.map Char.toLower)
    let path0 := after.takeWhile (fun c => !isPathStop c)
    let path := if path0 == [] && specialScheme scheme then ['/'] else path0
    some ⟨String.mk (scheme ++ [':']), String.mk host, String.mk path⟩

/-- The opaque-path form (no authority): everything up to the first of ? #
is the path, the host is empty. -/
def opaquePathForm (scheme rest : List Char) : URLParts :=
  ⟨String.mk (scheme ++ [':']), "", String.mk (rest.takeWhile (fun c => !isPathStop c))⟩

/-- Model of new URL on a character list: scheme, then either the
authority-full form or the opaque-path form. -/
def parseURLL (l : List Char) : Option URLParts :=
  match splitScheme l with
  | none => none
  | some (schemeRaw, rest) =>
    let scheme := schemeRaw.map Char.toLower
    if startsWithSlashSlash rest then authorityForm scheme (rest.drop 2)
    else some (opaquePathForm scheme rest)

/-- Model of new URL on a string. -/
def parseURL (s : String) : Option URLParts :=
  parseURLL s.data

/-- The .replace of matchEnvironment: strip exactly one trailing slash. -/
def stripTrailingSlash (s : String) : String :=
  if s.data.getLast? = some '/' then String.mk s.data.dropLast else s

/-- The template-string normalisation of matchEnvironment:
protocol // host pathname, then one trailing slash stripped. -/
def normalizeFromParts (u : URLParts) : String :=
  stripTrailingSlash (u.protocol ++ "//" ++ u.host ++ u.pathname)

/-- Candidate-side normalisation of matchEnvironment: best effort, the
original string is kept when parsing fails. -/
def normalizeUrl (s : String) : String :=
  match parseURL s with
  | none => s
  | some u => normalizeFromParts u

/-- JS String.prototype.startsWith. -/
def jsStartsWith (s p : String) : Bool := p.data.isPrefixOf s.data

/-- JS String.prototype.endsWith. -/
def jsEndsWith (s p : String) : Bool := p.data.isSuffixOf s.data

/-- JS s.slice(0, -2). -/
def jsSliceDropTwo (s : String) : String := String.mk s.data.dropLast.dropLast

/-- A registered environment as the matcher reads it: its loginUrl (the
empty string models a falsy loginUrl, which is skipped) and an opaque
identity. -/
structure Env where
  loginUrl : String
  id : Nat
  deriving DecidableEq

/-- The per-environment test of the matcher loop: a nonempty loginUrl that
parses, and then either exact equality of normalised URLs or the /* wildcard
prefix rule. -/
def envMatches (ncur : String) (e : Env) : Bool :=
  if e.loginUrl = "" then false
  else
    match parseURL e.loginUrl with
    | none => false
    | some u =>
      let nenv := normalizeFromParts u
      if ncur = nenv then true
      else jsEndsWith nenv "/*" && jsStartsWith ncur (jsSliceDropTwo nenv)

/-- The for-loop of matchEnvironment over the registered environments:
skip falsy loginUrl, skip parse failures (the catch-continue branch),
return the first environment matching exactly or by wildcard. -/
def matchLoop (ncur : String) : List Env → Option Env
  | [] => none
  | e :: rest =>
    if e.loginUrl = "" then matchLoop ncur rest
    else
      match parseURL e.loginUrl with
      | none => matchLoop ncur rest
      | some u =>
        let nenv := normalizeFromParts u
        if ncur = nenv then some e
        else if jsEndsWith nenv "/*" && jsStartsWith ncur (jsSliceDropTwo nenv) then some e
        else matchLoop ncur rest

/-- content.js matchEnvironment: falsy URL short-circuits to null;
otherwise the candidate is normalised once (best effort) and the
environments are scanned in registration order. -/
def matchEnvironment (environments : List Env) (currentUrl : String) : Option Env :=
  if currentUrl = "" then none
  else matchLoop (normalizeUrl currentUrl) environments

/-- Protocol of the page location as initFloatingPanel reads it. -/
def urlProtocol (s : String) : String :=
  match parseURL s with
  | none => ""
  | some u => u.protocol

/-- The environment-lookup pipeline of initFloatingPanel: the chrome: and
chrome-extension: early returns, the falsy-or-not-startsWith-http early
return, then matchEnvironment on the page URL. -/
def initFloatingPanelLookup (environments : List Env) (currentUrl : String) : Option Env :=
  if urlProtocol currentUrl == "chrome:" || urlProtocol currentUrl == "chrome-extension:" then
    none
  else if currentUrl == "" || !jsStartsWith currentUrl "http" then none
  else matchEnvironment environments currentUrl

/-- A concrete instance of the abstracted platform primitives, used to
exercise the wrappers on closed inputs: key derivation concatenates, the
cipher is the identity on byte lists, text encoding lists code points. -/
def idPrimitives : CryptoPrimitives where
  deriveKey := fun pw salt => some (pw ++ salt)
  aesGcmEncrypt := fun _ _ data => some data
  aesGcmDecrypt := fun _ _ data => some data
  encodeText := fun s => s.data.map Char.toNat
  decodeText := fun l => String.mk (l.map Char.ofNat)

/-! ## Lemmas: base64 round trip -/

/-- The sextet stream of the base64 encoding of a byte list, without
padding. -/
def rawSextets : List Nat → List Nat
  | a :: b :: c :: rest =>
      (a / 4) :: (a % 4 * 16 + b / 16) :: (b % 16 * 4 + c / 64) :: (c % 64) :: rawSextets rest
  | [a, b] => [a / 4, a % 4 * 16 + b / 16, b % 16 * 4]
  | [a] => [a / 4, a % 4 * 16]
  | [] => []

/-- The padding characters of the base64 encoding of a byte list. -/
def b64Pad : List Nat → List Char
  | _ :: _ :: _ :: rest => b64Pad rest
  | [_, _] => ['=']
  | [_] => ['=', '=']
  | [] => []

theorem b64Index_b64Char : ∀ n < 64, b64Index (b64Char n) = some n := by decide

theorem b64Char_ne_pad : ∀ n < 64, b64Char n ≠ '=' := by decide

theorem b64Char_not_ws : ∀ n < 64, isB64Ws (b64Char n) = false := by decide

theorem pad_not_ws : isB64Ws '=' = false := rfl

theorem b64EncodeBytes_eq (bs : List Nat) :
    b64EncodeBytes bs = (rawSextets bs).map b64Char ++ b64Pad bs := by
  match bs with
  | [] => rfl
  | [a] => rfl
  | [a, b] => rfl
  | a :: b :: c :: rest =>
    simp only [b64EncodeBytes, rawSextets, b64Pad, List.map_cons, List.cons_append]
    rw [b64EncodeBytes_eq rest]

theorem rawSextets_lt (bs : List Nat) (hb : ∀ b ∈ bs, b < 256) :
    ∀ n ∈ rawSextets bs, n < 64 := by
  match bs with
  | [] => simp [rawSextets]
  | [a] =>
    have ha := hb a (by simp)
    simp only [rawSextets, List.mem_cons, List.not_mem_nil, or_false]
    rintro n (rfl | rfl) <;> omega
  | [a, b] =>
    have ha := hb a (by simp)
    have hbb := hb b (by simp)
    simp only [rawSextets, List.mem_cons, List.not_mem_nil, or_false]
    rintro n (rfl | rfl | rfl) <;> omega
  | a :: b :: c :: rest =>
    have ha := hb a (by simp)
    have hbb := hb b (by simp)
    have hc := hb c (by simp)
    have ih := rawSextets_lt rest (fun x hx => hb x (by simp [hx]))
    simp only [rawSextets, List.mem_cons]
    rintro n (rfl | rfl | rfl | rfl | hn)
    · omega
    · omega
    · omega
    · omega
    · exact ih n hn

theorem b64Pad_shape (bs : List Nat) :
    b64Pad bs = [] ∨ b64Pad bs = ['='] ∨ b64Pad bs = ['=', '='] := by
  match bs with
  | [] => simp [b64Pad]
  | [a] => simp [b64Pad]
  | [a, b] => simp [b64Pad]
  | a :: b :: c :: rest => exact b64Pad_shape rest

theorem encode_length_mod (bs : List Nat) :
    ((rawSextets bs).length + (b64Pad bs).length) % 4 = 0 := by
  match bs with
  | [] => simp [rawSextets, b64Pad]
  | [a] => simp [rawSextets, b64Pad]
  | [a, b] => simp [rawSextets, b64Pad]
  | a :: b :: c :: rest =>
    simp only [rawSextets, b64Pad, List.length_cons]
    have := encode_length_mod rest
    omega

theorem rawSextets_length_mod (bs : List Nat) : (rawSextets bs).length % 4 ≠ 1 := by
  match bs with
  | [] => simp [rawSextets]
  | [a] => simp [rawSextets]
  | [a, b] => simp [rawSextets]
  | a :: b :: c :: rest =>
    simp only [rawSextets, List.length_cons]
    have := rawSextets_length_mod rest
    omega

theorem charsToSextets_map (ns : List Nat) (h : ∀ n ∈ ns, n < 64) :
    charsToSextets (ns.map b64Char) = some ns := by
  induction ns with
  | nil => rfl
  | cons n t ih =>
    have hn := h n (by simp)
    have ht := ih (fun x hx => h x (by simp [hx]))
    simp only [List.map_cons, charsToSextets, b64Index_b64Char n hn, ht]

theorem sextetsToBytes_rawSextets (bs : List Nat) (hb : ∀ b ∈ bs, b < 256) :
    sextetsToBytes (rawSextets bs) = some bs := by
  match bs with
  | [] => rfl
  | [a] =>
    have ha := hb a (by simp)
    simp only [rawSextets, sextetsToBytes, Option.some.injEq, List.cons.injEq, and_true]
    omega
  | [a, b] =>
    have ha := hb a (by simp)
    have hbb := hb b (by simp)
    simp only [rawSextets, sextetsToBytes, Option.some.injEq, List.cons.injEq, and_true]
    constructor
    · omega
    · omega
  | a :: b :: c :: rest =>
    have ha := hb a (by simp)
    have hbb := hb b (by simp)
    have hc := hb c (by simp)
    have ih := sextetsToBytes_rawSextets rest (fun x hx => hb x (by simp [hx]))
    simp only [rawSextets, sextetsToBytes, ih, Option.some.injEq, List.cons.injEq]
    refine ⟨by omega, by omega, by omega, trivial⟩

theorem stripPad_append (M P : List Char) (hM : ∀ c ∈ M, c ≠ '=')
    (hP : P = [] ∨ P = ['='] ∨ P = ['=', '='])
    (hlen : (M ++ P).length % 4 = 0) :
    stripPad (M ++ P) = M := by
  rcases hP with rfl | rfl | rfl
  · rw [List.append_nil] at hlen ⊢
    have h2 : ¬ M.drop (M.length - 2) = ['=', '='] := by
      intro h
      have hmem : '=' ∈ M.drop (M.length - 2) := by rw [h]; simp
      exact hM '=' (List.drop_subset _ M hmem) rfl
    have h1 : ¬ M.drop (M.length - 1) = ['='] := by
      intro h
      have hmem : '=' ∈ M.drop (M.length - 1) := by rw [h]; simp
      exact hM '=' (List.drop_subset _ M hmem) rfl
    simp only [stripPad, if_pos hlen, if_neg h2, if_neg h1]
  · rcases List.eq_nil_or_concat M with rfl | ⟨M1, c, rfl⟩
    · simp at hlen
    · simp only [List.concat_eq_append] at hM hlen ⊢
      have hc : c ≠ '=' := hM c (by simp)
      have hlen2 : (M1 ++ [c] ++ ['=']).length = M1.length + 2 := by simp
      have hd2 : (M1 ++ [c] ++ ['=']).drop ((M1 ++ [c] ++ ['=']).length - 2) = [c, '='] := by

        rw [hlen2]
        have he : M1 ++ [c] ++ ['='] = M1 ++ [c, '='] := by simp
        have hn : M1.length + 2 - 2 = M1.length := by omega
        rw [he, hn]
        exact List.drop_left M1 [c, '=']
      have h2 : ¬ (M1 ++ [c] ++ ['=']).drop ((M1 ++ [c] ++ ['=']).length - 2) = ['=', '='] := by
        rw [hd2]
        intro h
        simp only [List.cons.injEq] at h
        exact hc h.1
      have hd1 : (M1 ++ [c] ++ ['=']).drop ((M1 ++ [c] ++ ['=']).length - 1) = ['='] := by
        rw [hlen2]
        have hn : M1.length + 2 - 1 = (M1 ++ [c]).length := by simp
        rw [hn]
        exact List.drop_left (M1 ++ [c]) ['=']
      have ht1 : (M1 ++ [c] ++ ['=']).take ((M1 ++ [c] ++ ['=']).length - 1) = M1 ++ [c] := by
        rw [hlen2]
        have hn : M1.length + 2 - 1 = (M1 ++ [c]).length := by simp
        rw [hn]
        exact List.take_left (M1 ++ [c]) ['=']
      simp only [stripPad, if_pos hlen, if_neg h2, if_pos hd1, ht1]
  · have hd2 : (M ++ ['=', '=']).drop ((M ++ ['=', '=']).length - 2) = ['=', '='] := by
      have hl : (M ++ ['=', '=']).length = M.length + 2 := by simp
      rw [hl]
      have hn : M.length + 2 - 2 = M.length := by omega
      rw [hn]
      exact List.drop_left M ['=', '=']
    have ht2 : (M ++ ['=', '=']).take ((M ++ ['=', '=']).length - 2) = M := by
      have hl : (M ++ ['=', '=']).length = M.length + 2 := by simp
      rw [hl]
      have hn : M.length + 2 - 2 = M.length := by omega
      rw [hn]
      exact List.take_left M ['=', '=']
    simp only [stripPad, if_pos hlen, if_pos hd2, ht2]

theorem b64_roundtrip (bs : List Nat) (hb : ∀ b ∈ bs, b < 256) :
    atobL (b64EncodeBytes bs) = some bs := by
  have hlt := rawSextets_lt bs hb
  have hM : ∀ c ∈ (rawSextets bs).map b64Char, c ≠ '=' := by
    intro c hc
    rcases List.mem_map.mp hc with ⟨n, hn, rfl⟩
    exact b64Char_ne_pad n (hlt n hn)
  have hWs : ∀ c ∈ b64EncodeBytes bs, (!isB64Ws c) = true := by
    intro c hc
    rw [b64EncodeBytes_eq] at hc
    rcases List.mem_append.mp hc with h | h
    · rcases List.mem_map.mp h with ⟨n, hn, rfl⟩
      simp [b64Char_not_ws n (hlt n hn)]
    · rcases b64Pad_shape bs with hp | hp | hp <;> rw [hp] at h <;> simp_all [pad_not_ws]
  have hfilter : (b64EncodeBytes bs).filter (fun c => !isB64Ws c) = b64EncodeBytes bs :=
    List.filter_eq_self.mpr hWs
  have hlen : ((rawSextets bs).map b64Char ++ b64Pad bs).length % 4 = 0 := by
    rw [List.length_append, List.length_map]
    exact encode_length_mod bs
  have hstrip : stripPad (b64EncodeBytes bs) = (rawSextets bs).map b64Char := by
    rw [b64EncodeBytes_eq]
    exact stripPad_append _ _ hM (b64Pad_shape bs) hlen
  have hmod : ((rawSextets bs).map b64Char).length % 4 ≠ 1 := by
    rw [List.length_map]
    exact rawSextets_length_mod bs
  rw [atobL]
  simp only [hfilter, hstrip, if_neg hmod, charsToSextets_map _ hlt,
    sextetsToBytes_rawSextets bs hb]

/-- String-level base64 round trip for the two source codec helpers. -/
theorem base64_codec_roundtrip (bs : List Nat) (hb : ∀ b ∈ bs, b < 256) :
    base64ToArrayBuffer (arrayBufferToBase64 bs) = some bs := by
  rw [arrayBufferToBase64, base64ToArrayBuffer]
  exact b64_roundtrip bs hb

/-! ## Lemmas: cipher wrappers -/

theorem generateSalt_length (rnd : Nat → Nat) : (generateSalt rnd).length = 16 := by
  simp [generateSalt]

theorem generateIV_length (rnd : Nat → Nat) : (generateIV rnd).length = 12 := by
  simp [generateIV]

theorem generateSalt_lt (rnd : Nat → Nat) : ∀ b ∈ generateSalt rnd, b < 256 := by
  intro b hb
  simp only [generateSalt, List.mem_map] at hb
  rcases hb with ⟨i, _, rfl⟩
  exact Nat.mod_lt _ (by omega)

theorem generateIV_lt (rnd : Nat → Nat) : ∀ b ∈ generateIV rnd, b < 256 := by
  intro b hb
  simp only [generateIV, List.mem_map] at hb
  rcases hb with ⟨i, _, rfl⟩
  exact Nat.mod_lt _ (by omega)

/-- Splitting a salt-IV-ciphertext concatenation at the offsets decrypt
uses recovers the three components. -/
theorem split_blob (salt iv ct : List Nat) (hs : salt.length = 16) (hi : iv.length = 12) :
    (salt ++ iv ++ ct).take 16 = salt ∧
      ((salt ++ iv ++ ct).drop 16).take 12 = iv ∧
      (salt ++ iv ++ ct).drop 28 = ct := by
  have hassoc : salt ++ iv ++ ct = salt ++ (iv ++ ct) := List.append_assoc salt iv ct
  refine ⟨?_, ?_, ?_⟩
  · rw [hassoc]
    exact List.take_left' hs
  · rw [hassoc, List.drop_left' hs]
    exact List.take_left' hi
  · exact List.drop_left' (by simp [hs, hi])

/-! ## Claims about the credential cipher -/

/-- C1: for every nonempty plaintext p and master secret s (randomness for
salt and IV an explicit input), encrypting and then decrypting with the
same secret returns p.  The hypotheses pin down the abstracted platform
primitives at the arguments used: derivation and encryption succeed, the
ciphertext is a byte list, AES-GCM decryption inverts encryption under the
same key and IV, and text decoding inverts text encoding. -/
theorem c1_encrypt_decrypt_roundtrip (P : CryptoPrimitives) (p s : String)
    (rndSalt rndIV : Nat → Nat) (key ct : List Nat)
    (hp : p ≠ "")
    (hk : P.deriveKey (P.encodeText s) (generateSalt rndSalt) = some key)
    (he : P.aesGcmEncrypt key (generateIV rndIV) (P.encodeText p) = some ct)
    (hct : ∀ b ∈ ct, b < 256)
    (hd : P.aesGcmDecrypt key (generateIV rndIV) ct = some (P.encodeText p))
    (ht : P.decodeText (P.encodeText p) = p) :
    ∃ blob, encrypt P p s rndSalt rndIV = some blob ∧ decrypt P blob s = some p := by
  refine ⟨arrayBufferToBase64 (generateSalt rndSalt ++ generateIV rndIV ++ ct), ?_, ?_⟩
  · simp only [encrypt, hk, he]
  · have hbytes : ∀ b ∈ generateSalt rndSalt ++ generateIV rndIV ++ ct, b < 256 := by
      intro b hb
      rcases List.mem_append.mp hb with h | h
      · rcases List.mem_append.mp h with h2 | h2
        · exact generateSalt_lt rndSalt b h2
        · exact generateIV_lt rndIV b h2
      · exact hct b h
    have hb64 := base64_codec_roundtrip _ hbytes
    obtain ⟨h16, h12, h28⟩ :=
      split_blob (generateSalt rndSalt) (generateIV rndIV) ct
        (generateSalt_length rndSalt) (generateIV_length rndIV)
    simp only [decrypt, hb64, h16, h12, h28, hk, hd, ht]

/-- C1 witness: a closed round trip through the identity instance of the
platform primitives. -/
theorem c1_encrypt_decrypt_roundtrip_witness :
    ∃ blob, encrypt idPrimitives "hi" "k" (fun i => i) (fun i => i) = some blob ∧
      decrypt idPrimitives blob "k" = some "hi" :=
  c1_encrypt_decrypt_roundtrip idPrimitives "hi" "k" (fun i => i) (fun i => i)
    (idPrimitives.encodeText "k" ++ generateSalt (fun i => i))
    (idPrimitives.encodeText "hi")
    (by decide) rfl rfl (by decide) rfl (by decide)

/-- C5: every blob encrypt produces is the base64 encoding of exactly
16 salt bytes, then 12 IV bytes, then the ciphertext-and-tag bytes, and
decrypt splits a decoded blob at exactly those offsets, handing the
remainder after byte 28 (together with the key derived from bytes 0..16
and the IV bytes 16..28) to AES-GCM decryption. -/
theorem c5_blob_wire_format (P : CryptoPrimitives) (p s : String)
    (rndSalt rndIV : Nat → Nat) (key ct : List Nat)
    (hk : P.deriveKey (P.encodeText s) (generateSalt rndSalt) = some key)
    (he : P.aesGcmEncrypt key (generateIV rndIV) (P.encodeText p) = some ct)
    (hct : ∀ b ∈ ct, b < 256) :
    encrypt P p s rndSalt rndIV =
        some (arrayBufferToBase64 (generateSalt rndSalt ++ generateIV rndIV ++ ct)) ∧
      (generateSalt rndSalt).length = 16 ∧
      (generateIV rndIV).length = 12 ∧
      base64ToArrayBuffer (arrayBufferToBase64 (generateSalt rndSalt ++ generateIV rndIV ++ ct)) =
        some (generateSalt rndSalt ++ generateIV rndIV ++ ct) ∧
      decrypt P (arrayBufferToBase64 (generateSalt rndSalt ++ generateIV rndIV ++ ct)) s =
        Option.map P.decodeText (P.aesGcmDecrypt key (generateIV rndIV) ct) := by
  have hbytes : ∀ b ∈ generateSalt rndSalt ++ generateIV rndIV ++ ct, b < 256 := by
    intro b hb
    rcases List.mem_append.mp hb with h | h
    · rcases List.mem_append.mp h with h2 | h2
      · exact generateSalt_lt rndSalt b h2
      · exact generateIV_lt rndIV b h2
    · exact hct b h
  have hb64 := base64_codec_roundtrip _ hbytes
  obtain ⟨h16, h12, h28⟩ :=
    split_blob (generateSalt rndSalt) (generateIV rndIV) ct
      (generateSalt_length rndSalt) (generateIV_length rndIV)
  refine ⟨by simp only [encrypt, hk, he], generateSalt_length rndSalt, generateIV_length rndIV,
    hb64, ?_⟩
  simp only [decrypt, hb64, h16, h12, h28, hk]
  cases P.aesGcmDecrypt key (generateIV rndIV) ct <;> simp

/-- C5 witness: closed instantiation through the identity primitives. -/
theorem c5_blob_wire_format_witness :
    encrypt idPrimitives "hi" "k" (fun i => i) (fun i => i) =
        some (arrayBufferToBase64
          (generateSalt (fun i => i) ++ generateIV (fun i => i) ++
            idPrimitives.encodeText "hi")) ∧
      (generateSalt (fun i => i)).length = 16 ∧
      (generateIV (fun i => i)).length = 12 ∧
      base64ToArrayBuffer (arrayBufferToBase64
          (generateSalt (fun i => i) ++ generateIV (fun i => i) ++
            idPrimitives.encodeText "hi")) =
        some (generateSalt (fun i => i) ++ generateIV (fun i => i) ++
          idPrimitives.encodeText "hi") ∧
      decrypt idPrimitives (arrayBufferToBase64
          (generateSalt (fun i => i) ++ generateIV (fun i => i) ++
            idPrimitives.encodeText "hi")) "k" =
        Option.map idPrimitives.decodeText
          (idPrimitives.aesGcmDecrypt
            (idPrimitives.encodeText "k" ++ generateSalt (fun i => i))
            (generateIV (fun i => i)) (idPrimitives.encodeText "hi")) :=
  c5_blob_wire_format idPrimitives "hi" "k" (fun i => i) (fun i => i)
    (idPrimitives.encodeText "k" ++ generateSalt (fun i => i))
    (idPrimitives.encodeText "hi") rfl rfl (by decide)

/-- C2: decryptPassword is total and returns its input unchanged on the
legacy-plaintext fast path, on a missing master secret and on a decrypt
failure; a changed return value can only come from a successful decrypt. -/
theorem c2_decryptPassword_fallbacks (P : CryptoPrimitives)
    (store : Except Unit (Option String)) (v : String) :
    (isBase64 v = false → decryptPassword P store none v = v) ∧
    (getMasterPassword store = none → decryptPassword P store none v = v) ∧
    (∀ m, getMasterPassword store = some m → decrypt P v m = none →
      decryptPassword P store none v = v) ∧
    (decryptPassword P store none v ≠ v →
      ∃ m, getMasterPassword store = some m ∧
        decrypt P v m = some (decryptPassword P store none v)) := by
  have hres : resolveMaster none store = getMasterPassword store := rfl
  refine ⟨?_, ?_, ?_, ?_⟩
  · intro h
    simp [decryptPassword, h]
  · intro h
    by_cases hb : isBase64 v = false
    · simp [decryptPassword, hb]
    · simp [decryptPassword, hb, hres, h]
  · intro m hm hd
    by_cases hb : isBase64 v = false
    · simp [decryptPassword, hb]
    · simp [decryptPassword, hb, hres, hm, hd]
  · intro hne
    by_cases hb : isBase64 v = false
    · exact absurd (by simp [decryptPassword, hb]) hne
    · match hg : getMasterPassword store with
      | none => exact absurd (by simp [decryptPassword, hb, hres, hg]) hne
      | some m =>
        match hd : decrypt P v m with
        | none => exact absurd (by simp [decryptPassword, hb, hres, hg, hd]) hne
        | some d =>
          have hval : decryptPassword P store none v = d := by
            simp [decryptPassword, hb, hres, hg, hd]
          exact ⟨m, rfl, by rw [hval, hd]⟩

/-- C2 witness: closed instantiation; "hello world!" fails the base64
shape check and is returned unchanged. -/
theorem c2_decryptPassword_fallbacks_witness :
    decryptPassword idPrimitives (Except.ok none) none "hello world!" = "hello world!" :=
  (c2_decryptPassword_fallbacks idPrimitives (Except.ok none) "hello world!").1 (by decide)

/-- C4: encryptPassword returns the password unchanged when no master
secret resolves, delegates to encrypt when one does, and returns the
password unchanged when encrypt fails; it never propagates an error
(it is a total String-valued function). -/
theorem c4_encryptPassword_fallbacks (P : CryptoPrimitives)
    (store : Except Unit (Option String)) (p : String) (rndSalt rndIV : Nat → Nat) :
    (getMasterPassword store = none → encryptPassword P store none p rndSalt rndIV = p) ∧
    (∀ m, getMasterPassword store = some m → encrypt P p m rndSalt rndIV = none →
      encryptPassword P store none p rndSalt rndIV = p) ∧
    (∀ m b, getMasterPassword store = some m → encrypt P p m rndSalt rndIV = some b →
      encryptPassword P store none p rndSalt rndIV = b) := by
  have hres : resolveMaster none store = getMasterPassword store := rfl
  refine ⟨?_, ?_, ?_⟩
  · intro h
    simp [encryptPassword, hres, h]
  · intro m hm he
    simp [encryptPassword, hres, hm, he]
  · intro m b hm he
    simp [encryptPassword, hres, hm, he]

/-- C4 witness: closed instantiation; with no stored secret the password
comes back unchanged. -/
theorem c4_encryptPassword_fallbacks_witness :
    encryptPassword idPrimitives (Except.ok none) none "pw" (fun _ => 0) (fun _ => 0) = "pw" :=
  (c4_encryptPassword_fallbacks idPrimitives (Except.ok none) "pw"
    (fun _ => 0) (fun _ => 0)).1 rfl

/-- C9: a master secret stored as the empty string behaves exactly like an
absent one: getMasterPassword yields none for an empty stored value and on
a storage error, encryptPassword returns every password unchanged, and
decryptPassword returns every base64-shaped value unchanged. -/
theorem c9_empty_secret_like_absent (P : CryptoPrimitives) (p v : String)
    (rndSalt rndIV : Nat → Nat) :
    getMasterPassword (Except.ok (some "")) = none ∧
    getMasterPassword (Except.error ()) = none ∧
    encryptPassword P (Except.ok (some "")) none p rndSalt rndIV = p ∧
    (isBase64 v = true → decryptPassword P (Except.ok (some "")) none v = v) := by
  refine ⟨rfl, rfl, ?_, ?_⟩
  · exact (c4_encryptPassword_fallbacks P (Except.ok (some "")) p rndSalt rndIV).1 rfl
  · intro hv
    exact (c2_decryptPassword_fallbacks P (Except.ok (some "")) v).2.1 rfl

/-- C9 witness: closed instantiation on a base64-shaped value and a
password. -/
theorem c9_empty_secret_like_absent_witness :
    encryptPassword idPrimitives (Except.ok (some "")) none "pw" (fun _ => 0) (fun _ => 0) =
        "pw" ∧
      decryptPassword idPrimitives (Except.ok (some "")) none "QUJD" = "QUJD" :=
  ⟨(c9_empty_secret_like_absent idPrimitives "pw" "QUJD" (fun _ => 0) (fun _ => 0)).2.2.1,
    (c9_empty_secret_like_absent idPrimitives "pw" "QUJD" (fun _ => 0) (fun _ => 0)).2.2.2
      (by decide)⟩

/-- C10: isBase64 accepts every nonempty string of alphabet characters
followed by at most two = characters, with no length-multiple-of-4
requirement; in particular the purely alphanumeric "abc" (length 3) is
classified as encoded, so decryptPassword reaches the decrypt call on it
instead of the legacy-plaintext fast path. -/
theorem c10_isBase64_overreach :
    (∀ (body : List Char) (pad : Nat), (∀ c ∈ body, isB64AlphaChar c = true) → pad ≤ 2 →
      0 < body.length + pad → isBase64 (String.mk (body ++ List.replicate pad '=')) = true) ∧
    isBase64 "abc" = true ∧
    "abc".length % 4 = 3 ∧
    (∀ (P : CryptoPrimitives) (store : Except Unit (Option String)) (m : String),
      getMasterPassword store = some m →
        (decrypt P "abc" m = none → decryptPassword P store none "abc" = "abc") ∧
        (∀ d, decrypt P "abc" m = some d → decryptPassword P store none "abc" = d)) := by
  refine ⟨?_, by decide, by decide, ?_⟩
  · intro body pad hbody hpad hlen
    have hdata : (String.mk (body ++ List.replicate pad '=')).data =
        body ++ List.replicate pad '=' := rfl
    have hdw : (body ++ List.replicate pad '=').dropWhile isB64AlphaChar =
        List.replicate pad '=' := by
      rw [List.dropWhile_append_of_pos hbody]
      interval_cases pad <;> rfl
    have hshape : b64Shape (body ++ List.replicate pad '=') = true := by
      rw [b64Shape]
      interval_cases pad <;> simp_all
    have hlen2 : (String.mk (body ++ List.replicate pad '=')).length =
        body.length + pad := by
      simp [String.length]
    rw [isBase64, hdata, hshape, hlen2]
    simpa using hlen
  · intro P store m hm
    have hres : resolveMaster none store = getMasterPassword store := rfl
    have hb : isBase64 "abc" = true := by decide
    refine ⟨?_, ?_⟩
    · intro hd
      simp [decryptPassword, hres, hm, hd, hb]
    · intro d hd
      simp [decryptPassword, hres, hm, hd, hb]

/-- C10 witness: closed instantiations of the shape rule and of the
attempted decryption on "abc". -/
theorem c10_isBase64_overreach_witness :
    isBase64 (String.mk ("abc".data ++ List.replicate 0 '=')) = true ∧
      decryptPassword idPrimitives (Except.ok (some "m")) none "abc" = "" :=
  ⟨c10_isBase64_overreach.1 "abc".data 0 (by decide) (by decide) (by decide),
    (c10_isBase64_overreach.2.2.2 idPrimitives (Except.ok (some "m")) "m" rfl).2
      "" (by decide)⟩

/-! ## Lemmas: URL parser and matcher -/

theorem takeWhile_append_stop (p : Char → Bool) (l t : List Char) (x : Char)
    (h : p x = false) : (l ++ x :: t).takeWhile p = l.takeWhile p := by
  induction l with
  | nil => simp [List.takeWhile_cons, h]
  | cons c cs ih => cases hc : p c <;> simp [List.takeWhile_cons, hc, ih]

theorem dropWhile_append_stop (p : Char → Bool) (l t : List Char) (x : Char)
    (h : p x = false) : (l ++ x :: t).dropWhile p = l.dropWhile p ++ x :: t := by
  induction l with
  | nil => simp [List.dropWhile_cons, h]
  | cons c cs ih => cases hc : p c <;> simp [List.dropWhile_cons, hc, ih]

theorem splitScheme_append (l t a r : List Char) (h : splitScheme l = some (a, r)) :
    splitScheme (l ++ t) = some (a, r ++ t) := by
  simp only [splitScheme] at h ⊢
  by_cases hcnd : ((l.head?.map isSchemeStart).getD false = true ∧
      (l.dropWhile isSchemeChar).head? = some ':')
  · rw [if_pos hcnd] at h
    simp only [Option.some.injEq, Prod.mk.injEq] at h
    obtain ⟨ha, hr⟩ := h
    obtain ⟨hstart, hcolon⟩ := hcnd
    cases l with
    | nil => simp at hstart
    | cons c l1 =>
      cases hdw : (c :: l1).dropWhile isSchemeChar with
      | nil => rw [hdw] at hcolon; simp at hcolon
      | cons d dtail =>
        rw [hdw] at hcolon hr
        simp only [List.head?_cons, Option.some.injEq] at hcolon
        simp only [List.tail_cons] at hr
        have hlen : ¬ ((c :: l1).takeWhile isSchemeChar).length = (c :: l1).length := by
          intro hl
          have hsum : ((c :: l1).takeWhile isSchemeChar).length +
              ((c :: l1).dropWhile isSchemeChar).length = (c :: l1).length := by
            rw [← List.length_append, List.takeWhile_append_dropWhile]
          rw [hdw] at hsum
          simp only [List.length_cons] at hsum hl
          omega
        have htw : ((c :: l1) ++ t).takeWhile isSchemeChar =
            (c :: l1).takeWhile isSchemeChar := by
          rw [List.takeWhile_append, if_neg hlen]
        have hdw2 : ((c :: l1) ++ t).dropWhile isSchemeChar = d :: (dtail ++ t) := by
          rw [List.dropWhile_append, hdw]
          simp
        rw [if_pos ?side]
        case side =>
          refine ⟨?_, ?_⟩
          · simpa using hstart
          · rw [hdw2, List.head?_cons, hcolon]
        · rw [htw, ha, hdw2, List.tail_cons, hr]
  · rw [if_neg hcnd] at h
    exact absurd h (by simp)

theorem startsWithSlashSlash_append_query (rest t : List Char) :
    startsWithSlashSlash (rest ++ '?' :: t) = startsWithSlashSlash rest := by
  have hq : ('?' == '/') = false := rfl
  match rest with
  | [] =>
    cases t with
    | nil => rfl
    | cons y t2 => simp [startsWithSlashSlash, hq]
  | [x] => simp [startsWithSlashSlash, hq]
  | d1 :: d2 :: r => rfl

theorem startsWithSlashSlash_shape (rest : List Char) (h : startsWithSlashSlash rest = true) :
    ∃ r2, rest = '/' :: '/' :: r2 := by
  match rest with
  | [] => simp [startsWithSlashSlash] at h
  | [x] => simp [startsWithSlashSlash] at h
  | d1 :: d2 :: r =>
    simp only [startsWithSlashSlash, Bool.and_eq_true, beq_iff_eq] at h
    exact ⟨r, by rw [h.1, h.2]⟩

theorem authorityForm_append_query (scheme r t : List Char) :
    authorityForm scheme (r ++ '?' :: t) = authorityForm scheme r := by
  simp only [authorityForm,
    takeWhile_append_stop (fun c => !isAuthorityStop c) r t '?' rfl,
    dropWhile_append_stop (fun c => !isAuthorityStop c) r t '?' rfl,
    takeWhile_append_stop (fun c => !isPathStop c)
      (r.dropWhile (fun c => !isAuthorityStop c)) t '?' rfl]

theorem opaquePathForm_append_query (scheme r t : List Char) :
    opaquePathForm scheme (r ++ '?' :: t) = opaquePathForm scheme r := by
  simp only [opaquePathForm,
    takeWhile_append_stop (fun c => !isPathStop c) r t '?' rfl]

/-- Appending a query never changes the parsed parts: the ? stops both the
authority scan and the path scan. -/
theorem parseURLL_append_query (l t : List Char) (u : URLParts)
    (h : parseURLL l = some u) : parseURLL (l ++ '?' :: t) = some u := by
  unfold parseURLL at h ⊢
  cases hs : splitScheme l with
  | none => rw [hs] at h; exact absurd h (by simp)
  | some pr =>
    obtain ⟨schemeRaw, rest⟩ := pr
    simp only [hs] at h
    simp only [splitScheme_append l ('?' :: t) schemeRaw rest hs]
    rw [startsWithSlashSlash_append_query]
    by_cases hss : startsWithSlashSlash rest = true
    · rw [if_pos hss] at h ⊢
      obtain ⟨r2, rfl⟩ := startsWithSlashSlash_shape rest hss
      have hdrop : (('/' :: '/' :: r2) ++ '?' :: t).drop 2 = r2 ++ '?' :: t := rfl
      have hdrop2 : ('/' :: '/' :: r2).drop 2 = r2 := rfl
      rw [hdrop, authorityForm_append_query]
      rw [hdrop2] at h
      exact h
    · rw [if_neg hss] at h ⊢
      rw [opaquePathForm_append_query]
      exact h

theorem parseURL_append_query (s q : String) (u : URLParts) (h : parseURL s = some u) :
    parseURL (s ++ "?" ++ q) = some u := by
  have hdata : (s ++ "?" ++ q).data = s.data ++ '?' :: q.data := by
    rw [String.data_append, String.data_append]
    simp
  rw [parseURL, hdata]
  exact parseURLL_append_query s.data q.data u h

theorem normalizeUrl_of_parse (s : String) (u : URLParts) (h : parseURL s = some u) :
    normalizeUrl s = normalizeFromParts u := by
  simp [normalizeUrl, h]

theorem normalizeUrl_of_fail (s : String) (h : parseURL s = none) :
    normalizeUrl s = s := by
  simp [normalizeUrl, h]

theorem stripTrailingSlash_append_slash (s : String) :
    stripTrailingSlash (s ++ "/") = s := by
  have hdata : (s ++ "/").data = s.data ++ ['/'] := by
    rw [String.data_append]
  simp only [stripTrailingSlash, hdata, List.getLast?_concat, List.dropLast_concat]
  rfl

theorem stripTrailingSlash_of_no_slash (s : String) (h : ¬ s.data.getLast? = some '/') :
    stripTrailingSlash s = s := by
  simp only [stripTrailingSlash, if_neg h]

/-- A single environment with a parseable loginUrl matches a candidate
whose normalisation agrees with the environment normalisation. -/
theorem matchEnv_single_exact (e : Env) (c : String) (u : URLParts)
    (hc : c ≠ "") (hne : e.loginUrl ≠ "") (hu : parseURL e.loginUrl = some u)
    (heq : normalizeUrl c = normalizeFromParts u) :
    matchEnvironment [e] c = some e := by
  simp [matchEnvironment, hc, matchLoop, hne, hu, heq]

theorem find?_cons_true (p : Env → Bool) (e : Env) (rest : List Env) (h : p e = true) :
    (e :: rest).find? p = some e := by
  simp [List.find?, h]

theorem find?_cons_false (p : Env → Bool) (e : Env) (rest : List Env) (h : p e = false) :
    (e :: rest).find? p = rest.find? p := by
  simp [List.find?, h]

/-- The matcher loop is the first-satisfying search over the per-environment
test, in registration order. -/
theorem matchLoop_eq_find (ncur : String) (envs : List Env) :
    matchLoop ncur envs = envs.find? (envMatches ncur) := by
  induction envs with
  | nil => rfl
  | cons e rest ih =>
    by_cases h1 : e.loginUrl = ""
    · have hm : envMatches ncur e = false := by simp [envMatches, h1]
      rw [find?_cons_false (envMatches ncur) e rest hm, ← ih]
      simp [matchLoop, h1]
    · cases hp : parseURL e.loginUrl with
      | none =>
        have hm : envMatches ncur e = false := by simp [envMatches, h1, hp]
        rw [find?_cons_false (envMatches ncur) e rest hm, ← ih]
        simp [matchLoop, h1, hp]
      | some u =>
        by_cases h2 : ncur = normalizeFromParts u
        · have hm : envMatches ncur e = true := by simp [envMatches, h1, hp, h2]
          rw [find?_cons_true (envMatches ncur) e rest hm]
          simp [matchLoop, h1, hp, h2]
        · by_cases h3 : (jsEndsWith (normalizeFromParts u) "/*" &&
              jsStartsWith ncur (jsSliceDropTwo (normalizeFromParts u))) = true
          · have hm : envMatches ncur e = true := by simp [envMatches, h1, hp, h2, h3]
            rw [find?_cons_true (envMatches ncur) e rest hm]
            simp [matchLoop, h1, hp, h2, h3]
          · have hm : envMatches ncur e = false := by
              simp only [envMatches, Bool.not_eq_true] at h3 ⊢
              simp [h1, hp, h2, h3]
            rw [find?_cons_false (envMatches ncur) e rest hm, ← ih]
            simp only [Bool.not_eq_true] at h3
            simp [matchLoop, h1, hp, h2, h3]

theorem find_first_of_matches (p : Env → Bool) (xs rest2 : List Env) (e1 : Env)
    (hxs : ∀ e ∈ xs, p e = false) (h1 : p e1 = true) :
    (xs ++ e1 :: rest2).find? p = some e1 := by
  induction xs with
  | nil => exact find?_cons_true p e1 rest2 h1
  | cons x xt ih =>
    rw [List.cons_append, find?_cons_false p x (xt ++ e1 :: rest2) (hxs x (by simp))]
    exact ih (fun e he => hxs e (by simp [he]))

/-! ## Claims about the environment matcher -/

/-- C8: environments are scanned in registration order and the first match
wins: whenever every environment before e1 fails the match test and both
e1 and a later e2 pass it, the lookup returns e1. -/
theorem c8_registration_order_wins (c : String) (xs ys zs : List Env) (e1 e2 : Env)
    (hc : c ≠ "")
    (hxs : ∀ e ∈ xs, envMatches (normalizeUrl c) e = false)
    (h1 : envMatches (normalizeUrl c) e1 = true)
    (h2 : envMatches (normalizeUrl c) e2 = true) :
    matchEnvironment (xs ++ e1 :: (ys ++ e2 :: zs)) c = some e1 := by
  have hfind := matchLoop_eq_find (normalizeUrl c) (xs ++ e1 :: (ys ++ e2 :: zs))
  rw [matchEnvironment, if_neg hc, hfind]
  exact find_first_of_matches _ xs (ys ++ e2 :: zs) e1 hxs h1

/-- C8 witness: two environments whose normalised loginUrl collide on the
candidate (one via the stripped trailing slash); a non-matching
environment sits in front; the earlier of the two colliding ones wins. -/
theorem c8_registration_order_wins_witness :
    matchEnvironment [⟨"https://b.com/x", 0⟩, ⟨"https://a.com/login", 1⟩,
        ⟨"https://a.com/login/", 2⟩] "https://a.com/login" =
      some ⟨"https://a.com/login", 1⟩ :=
  c8_registration_order_wins "https://a.com/login" [⟨"https://b.com/x", 0⟩] [] []
    ⟨"https://a.com/login", 1⟩ ⟨"https://a.com/login/", 2⟩
    (by decide) (by decide) (by decide) (by decide)

/-- C7: for an environment whose normalised loginUrl ends in the two
characters /*, the matcher returns it exactly when the normalised candidate
has the loginUrl minus those two characters as a plain string prefix. -/
theorem c7_wildcard_rule (e : Env) (c : String) (u : URLParts)
    (hc : c ≠ "") (hne : e.loginUrl ≠ "")
    (hu : parseURL e.loginUrl = some u)
    (hw : jsEndsWith (normalizeFromParts u) "/*" = true) :
    matchEnvironment [e] c = some e ↔
      jsStartsWith (normalizeUrl c) (jsSliceDropTwo (normalizeFromParts u)) = true := by
  obtain ⟨pre, hpre⟩ : ∃ pre, pre ++ ['/', '*'] = (normalizeFromParts u).data := by
    have hsuf : ("/*" : String).data <:+ (normalizeFromParts u).data :=
      List.isSuffixOf_iff_suffix.mp hw
    exact hsuf
  have hdropTwo : (jsSliceDropTwo (normalizeFromParts u)).data = pre := by
    rw [jsSliceDropTwo, ← hpre]
    have hsplit : pre ++ ['/', '*'] = (pre ++ ['/']) ++ ['*'] := by simp
    rw [hsplit, List.dropLast_concat, List.dropLast_concat]
  have hself : jsStartsWith (normalizeFromParts u) (jsSliceDropTwo (normalizeFromParts u)) =
      true := by
    rw [jsStartsWith, hdropTwo, ← hpre]
    exact List.isPrefixOf_iff_prefix.mpr (List.prefix_append pre _)
  simp only [matchEnvironment, if_neg hc, matchLoop, if_neg hne, hu, hw, Bool.true_and]
  by_cases h2 : normalizeUrl c = normalizeFromParts u
  · rw [if_pos h2, h2, hself]
    simp
  · rw [if_neg h2]
    by_cases h3 : jsStartsWith (normalizeUrl c) (jsSliceDropTwo (normalizeFromParts u)) = true
    · simp [h3]
    · simp [h3]

/-- C7 witness: the spec pair of wildcard examples, both through the
equivalence. -/
theorem c7_wildcard_rule_witness :
    matchEnvironment [⟨"https://a.com/sso/*", 3⟩] "https://a.com/sso/step2" =
        some ⟨"https://a.com/sso/*", 3⟩ ∧
      ¬ matchEnvironment [⟨"https://a.com/sso/*", 3⟩] "https://b.com/sso/step2" =
        some ⟨"https://a.com/sso/*", 3⟩ :=
  ⟨(c7_wildcard_rule ⟨"https://a.com/sso/*", 3⟩ "https://a.com/sso/step2"
      ⟨"https:", "a.com", "/sso/*"⟩ (by decide) (by decide) (by decide) (by decide)).mpr
      (by decide),
    fun h =>
      absurd ((c7_wildcard_rule ⟨"https://a.com/sso/*", 3⟩ "https://b.com/sso/step2"
        ⟨"https:", "a.com", "/sso/*"⟩ (by decide) (by decide) (by decide) (by decide)).mp h)
        (by decide)⟩

/-- C6 counterexample: a string that fails to parse on both sides.  The
claim says the original string is kept for exact-match comparison when
parsing of either side fails; the code keeps the original candidate but
skips an environment whose loginUrl fails to parse, so the identical
unparseable string does not match itself. -/
theorem c6_counterexample :
    parseURL ":::" = none ∧ normalizeUrl ":::" = ":::" ∧
      matchEnvironment [⟨":::", 0⟩] ":::" = none := by
  refine ⟨by decide, ?_, by decide⟩
  exact normalizeUrl_of_fail _ (by decide)

/-- C6 (amended): normalisation collapses a parsed URL to
protocol//host pathname with one trailing slash stripped, identically for
the candidate (inside normalizeUrl) and the environment (inside the loop);
an unparseable candidate keeps its original string for comparison, while an
environment with an unparseable loginUrl is skipped; a candidate equal to
the loginUrl plus a query string, or whose parse differs only by one
trailing path slash, matches the environment exactly. -/
theorem c6_normalization_amended (c q : String) (e : Env) (u uc ul : URLParts) :
    (parseURL c = none → normalizeUrl c = c) ∧
    (parseURL c = some u → normalizeUrl c = normalizeFromParts u) ∧
    (parseURL e.loginUrl = none → matchEnvironment [e] c = none) ∧
    (c ≠ "" → e.loginUrl ≠ "" → parseURL e.loginUrl = some u →
      normalizeUrl c = normalizeUrl e.loginUrl → matchEnvironment [e] c = some e) ∧
    (c ≠ "" → e.loginUrl ≠ "" → parseURL c = some uc → parseURL e.loginUrl = some ul →
      uc.protocol = ul.protocol → uc.host = ul.host →
      uc.pathname = ul.pathname ++ "/" →
      ¬ (ul.protocol ++ "//" ++ ul.host ++ ul.pathname).data.getLast? = some '/' →
      matchEnvironment [e] c = some e) ∧
    (e.loginUrl ≠ "" → parseURL e.loginUrl = some u →
      matchEnvironment [e] (e.loginUrl ++ "?" ++ q) = some e) := by
  refine ⟨normalizeUrl_of_fail c, normalizeUrl_of_parse c u, ?_, ?_, ?_, ?_⟩
  · intro hp
    by_cases hc : c = ""
    · simp [matchEnvironment, hc]
    · by_cases h1 : e.loginUrl = ""
      · simp [matchEnvironment, hc, matchLoop, h1]
      · simp [matchEnvironment, hc, matchLoop, h1, hp]
  · intro hc hne hu heq
    exact matchEnv_single_exact e c u hc hne hu
      (by rw [heq, normalizeUrl_of_parse _ _ hu])
  · intro hc hne hpc hpl hproto hhost hpath hlast
    have hXl : normalizeFromParts ul = ul.protocol ++ "//" ++ ul.host ++ ul.pathname := by
      rw [normalizeFromParts]
      exact stripTrailingSlash_of_no_slash _ hlast
    have hXc : normalizeFromParts uc = ul.protocol ++ "//" ++ ul.host ++ ul.pathname := by
      rw [normalizeFromParts, hproto, hhost, hpath]
      have hre : ul.protocol ++ "//" ++ ul.host ++ (ul.pathname ++ "/") =
          (ul.protocol ++ "//" ++ ul.host ++ ul.pathname) ++ "/" := by
        simp [String.append_assoc]
      rw [hre, stripTrailingSlash_append_slash]
    exact matchEnv_single_exact e c ul hc hne hpl
      (by rw [normalizeUrl_of_parse _ _ hpc, hXc, ← hXl])
  · intro hne hu
    have hq : parseURL (e.loginUrl ++ "?" ++ q) = some u := parseURL_append_query _ _ _ hu
    have hcq : e.loginUrl ++ "?" ++ q ≠ "" := by
      intro h0
      have hd : (e.loginUrl ++ "?" ++ q).data = [] := by rw [h0]
      rw [String.data_append, String.data_append] at hd
      simp at hd
    exact matchEnv_single_exact e _ u hcq hne hu (normalizeUrl_of_parse _ _ hq)

/-- C6 witness: the spec pair of exact-match examples — a trailing slash
and a query string on the candidate both still match — together with the
unparseable-candidate fallback. -/
theorem c6_normalization_amended_witness :
    matchEnvironment [⟨"https://a.com/login", 1⟩] "https://a.com/login/" =
        some ⟨"https://a.com/login", 1⟩ ∧
      matchEnvironment [⟨"https://a.com/login", 1⟩] "https://a.com/login?x=1" =
        some ⟨"https://a.com/login", 1⟩ ∧
      normalizeUrl "not a url" = "not a url" :=
  ⟨(c6_normalization_amended "https://a.com/login/" "" ⟨"https://a.com/login", 1⟩
      ⟨"https:", "a.com", "/login"⟩ ⟨"https:", "a.com", "/login/"⟩
      ⟨"https:", "a.com", "/login"⟩).2.2.2.2.1
      (by decide) (by decide) (by decide) (by decide) (by decide) (by decide) (by decide)
      (by decide),
    (c6_normalization_amended "x" "x=1" ⟨"https://a.com/login", 1⟩
      ⟨"https:", "a.com", "/login"⟩ ⟨"https:", "a.com", "/login"⟩
      ⟨"https:", "a.com", "/login"⟩).2.2.2.2.2
      (by decide) (by decide),
    (c6_normalization_amended "not a url" "" ⟨"", 0⟩
      ⟨"", "", ""⟩ ⟨"", "", ""⟩ ⟨"", "", ""⟩).1 (by decide)⟩

/-- C3 counterexample: "httpz://a" is a candidate whose scheme is neither
http nor https, yet the lookup pipeline does not short-circuit: it
normalises it and finds a registered environment. -/
theorem c3_counterexample :
    urlProtocol "httpz://a" = "httpz:" ∧
      ¬ urlProtocol "httpz://a" = "http:" ∧
      ¬ urlProtocol "httpz://a" = "https:" ∧
      initFloatingPanelLookup [⟨"httpz://a", 0⟩] "httpz://a" = some ⟨"httpz://a", 0⟩ := by
  decide

/-- C3 (amended): an empty candidate, and every candidate that does not
begin with the four characters http (which covers "chrome://extensions"
and every other non-HTTP(S) scheme not spelled with that prefix),
short-circuits the lookup pipeline to not-found for every environment set;
matchEnvironment itself short-circuits the empty string.  All functions
involved are total, so nothing throws. -/
theorem c3_short_circuit (envs : List Env) (url : String) :
    (url = "" ∨ jsStartsWith url "http" = false →
      initFloatingPanelLookup envs url = none) ∧
    matchEnvironment envs "" = none := by
  constructor
  · rintro (rfl | hs)
    · have h1 : (urlProtocol "" == "chrome:" || urlProtocol "" == "chrome-extension:") =
          false := by decide
      have h2 : (("" : String) == "" || !jsStartsWith "" "http") = true := by decide
      simp [initFloatingPanelLookup, h1, h2]
    · by_cases hp : (urlProtocol url == "chrome:" ||
          urlProtocol url == "chrome-extension:") = true
      · simp [initFloatingPanelLookup, hp]
      · simp [initFloatingPanelLookup, hp, hs]
  · simp [matchEnvironment]

/-- C3 witness: the spec example "chrome://extensions" yields not-found. -/
theorem c3_short_circuit_witness :
    initFloatingPanelLookup [⟨"chrome://extensions", 0⟩] "chrome://extensions" = none :=
  (c3_short_circuit [⟨"chrome://extensions", 0⟩] "chrome://extensions").1
    (Or.inr (by decide))

end AccountManage
